import Mathlib

/-!
Shallow embedding of the `hwbp` hardware-breakpoint library
(src/enums.rs, src/raw.rs, src/registers.rs, src/hwbp_context.rs,
src/context.rs, src/lib.rs).

Machine words (`u64` / `usize` on the 64-bit target, the crate's
`WinAPIHatesUsize`) are modelled as `Nat`; bitwise complement `!x` on a
`u64` is modelled as XOR against `2^64 - 1`.  Fallible code (the
`.expect` calls on `from_bits` results) is modelled with `Option`.
-/

set_option maxHeartbeats 1000000
set_option maxRecDepth 10000

/-- `u64` bitwise complement `!x`, i.e. XOR with the all-ones 64-bit word. -/
def compl64 (x : Nat) : Nat := (2 ^ 64 - 1) ^^^ x

/-- src/enums.rs: `enum Condition { Execution = 0b00, Write = 0b01, ReadWrite = 0b11, IoReadWrite = 0b10 }`. -/
inductive Condition
  | Execution
  | Write
  | ReadWrite
  | IoReadWrite
deriving DecidableEq

/-- src/enums.rs: `Condition::as_bits` (`self as u8`, the explicit discriminants). -/
def Condition.as_bits : Condition → Nat
  | .Execution => 0b00
  | .Write => 0b01
  | .ReadWrite => 0b11
  | .IoReadWrite => 0b10

/-- src/enums.rs: `Condition::from_bits`. -/
def Condition.from_bits : Nat → Option Condition
  | 0b00 => some .Execution
  | 0b01 => some .Write
  | 0b11 => some .ReadWrite
  | 0b10 => some .IoReadWrite
  | _ => none

/-- src/enums.rs: `enum Index { First = 0, Second = 1, Third = 2, Fourth = 3 }`. -/
inductive Index
  | First
  | Second
  | Third
  | Fourth
deriving DecidableEq

/-- The numeric value of an `Index` (`index as u8` / `as usize`). -/
def Index.val : Index → Nat
  | .First => 0
  | .Second => 1
  | .Third => 2
  | .Fourth => 3

/-- src/enums.rs: `Index::by_dr6` — matches on `dr6 & 0b1111`. -/
def Index.by_dr6 (dr6 : Nat) : Option Index :=
  match dr6 &&& 0b1111 with
  | 0b0001 => some .First
  | 0b0010 => some .Second
  | 0b0100 => some .Third
  | 0b1000 => some .Fourth
  | _ => none

/-- src/enums.rs: `impl TryFrom<u8> for Index` (error mapped to `none`). -/
def Index.try_from (value : Nat) : Option Index :=
  if value = Index.First.val then some .First
  else if value = Index.Second.val then some .Second
  else if value = Index.Third.val then some .Third
  else if value = Index.Fourth.val then some .Fourth
  else none

/-- src/enums.rs: `enum Size { One, Two, Four, Eight }`. -/
inductive Size
  | One
  | Two
  | Four
  | Eight
deriving DecidableEq

/-- src/enums.rs: `Size::in_bytes`. -/
def Size.in_bytes : Size → Nat
  | .One => 1
  | .Two => 2
  | .Four => 4
  | .Eight => 8

/-- src/enums.rs: `Size::as_bits` — the explicit (non-ordinal) two-bit table. -/
def Size.as_bits : Size → Nat
  | .One => 0b00
  | .Two => 0b01
  | .Four => 0b11
  | .Eight => 0b10

/-- src/enums.rs: `Size::from_bits`. -/
def Size.from_bits : Nat → Option Size
  | 0b00 => some .One
  | 0b01 => some .Two
  | 0b11 => some .Four
  | 0b10 => some .Eight
  | _ => none

/-- src/lib.rs: `struct HardwareBreakpoint` (the pointer `address` is its numeric value). -/
structure HardwareBreakpoint where
  enabled : Bool
  index : Index
  address : Nat
  size : Size
  condition : Condition
deriving DecidableEq

/-- src/lib.rs: `HardwareBreakpoint::new()`. -/
def HardwareBreakpoint.new : HardwareBreakpoint :=
  { enabled := false
    index := .First
    address := 0
    size := .One
    condition := .ReadWrite }

/-- The debug-register block of the winapi `CONTEXT` structure
(the only fields this library reads or writes). -/
structure CONTEXT where
  Dr0 : Nat
  Dr1 : Nat
  Dr2 : Nat
  Dr3 : Nat
  Dr6 : Nat
  Dr7 : Nat
deriving DecidableEq

/-- src/raw.rs: `set_breakpoint` — writes the slot's address register, then
clears and writes the condition/size bits and the local-enable bit in Dr7. -/
def raw.set_breakpoint (context : CONTEXT) (bp : HardwareBreakpoint) : CONTEXT :=
  let hwbp_index := bp.index.val
  let stat_offset := 2 * hwbp_index
  let info_offset := 4 * hwbp_index + 16
  let cond_offset := info_offset
  let size_offset := info_offset + 2
  let context :=
    match bp.index with
    | .First => { context with Dr0 := bp.address }
    | .Second => { context with Dr1 := bp.address }
    | .Third => { context with Dr2 := bp.address }
    | .Fourth => { context with Dr3 := bp.address }
  let cond := bp.condition.as_bits
  let size := bp.size.as_bits
  let dr7 := context.Dr7 &&& compl64 (0b1111 <<< info_offset)
  let dr7 := dr7 ||| ((cond &&& 0b11) <<< cond_offset)
  let dr7 := dr7 ||| ((size &&& 0b11) <<< size_offset)
  let dr7 := dr7 &&& compl64 (1 <<< stat_offset)
  let dr7 := dr7 ||| (bp.enabled.toNat <<< stat_offset)
  { context with Dr7 := dr7 }

/-- src/raw.rs: `get_breakpoint`.  The source `.expect`s the two `from_bits`
results (a panic on decode failure); that fallible step is modelled by
returning `Option`, with `none` standing for the panic branch. -/
def raw.get_breakpoint (context : CONTEXT) (index : Index) : Option HardwareBreakpoint :=
  let stat_offset := 2 * index.val
  let cond_offset := 4 * index.val + 16
  let size_offset := 4 * index.val + 18
  let address :=
    match index with
    | .First => context.Dr0
    | .Second => context.Dr1
    | .Third => context.Dr2
    | .Fourth => context.Dr3
  match Size.from_bits (context.Dr7 >>> size_offset &&& 0b11),
        Condition.from_bits (context.Dr7 >>> cond_offset &&& 0b11) with
  | some size, some cond =>
      some { enabled := (context.Dr7 &&& (1 <<< stat_offset)) != 0
             index := index
             address := address
             size := size
             condition := cond }
  | _, _ => none

/-- `raw.get_breakpoint` with the `.expect` discharged by a default value;
the default branch is proven unreachable (`get_breakpoint_isSome`). -/
def raw.get_breakpointD (context : CONTEXT) (index : Index) : HardwareBreakpoint :=
  (raw.get_breakpoint context index).getD HardwareBreakpoint.new

/-- The iteration order `[Index::First, Index::Second, Index::Third, Index::Fourth]`
used by `raw::get_breakpoints`. -/
def Index.indices : List Index := [.First, .Second, .Third, .Fourth]

/-- src/raw.rs: `get_breakpoints` — all four breakpoints in ascending slot order. -/
def raw.get_breakpoints (context : CONTEXT) : List HardwareBreakpoint :=
  Index.indices.map (raw.get_breakpointD context)

/-- src/raw.rs: `unused_breakpoint` — first breakpoint with `!bp.enabled`. -/
def raw.unused_breakpoint (context : CONTEXT) : Option HardwareBreakpoint :=
  (raw.get_breakpoints context).find? (fun bp => !bp.enabled)

/-- src/raw.rs: `get_breakpoints_by_address` — keeps the breakpoints whose
half-open byte span `[address, address + size.in_bytes)` contains `address`. -/
def raw.get_breakpoints_by_address (context : CONTEXT) (address : Nat) :
    List HardwareBreakpoint :=
  (raw.get_breakpoints context).filter fun x =>
    decide (x.address ≤ address ∧ address < x.address + x.size.in_bytes)

/-- src/raw.rs: `clear_breakpoints`. -/
def raw.clear_breakpoints (context : CONTEXT) : CONTEXT :=
  { context with
    Dr7 := context.Dr7 &&& 0b00000000000000001111111100000000
    Dr0 := 0
    Dr1 := 0
    Dr2 := 0
    Dr3 := 0 }

/-- src/registers.rs: `EFlags::trap` (bit 8). -/
def EFlags.trap (v : Nat) : Bool := (v &&& (1 <<< 8)) != 0

/-- src/registers.rs: `EFlags::resume` (bit 16). -/
def EFlags.resume (v : Nat) : Bool := (v &&& (1 <<< 16)) != 0

/-- src/registers.rs: `EFlags::set_trap` — `write(read | (value as _) << 8)`. -/
def EFlags.set_trap (v : Nat) (value : Bool) : Nat := v ||| (value.toNat <<< 8)

/-- src/registers.rs: `EFlags::set_resume` — `write(read | (value as _) << 16)`. -/
def EFlags.set_resume (v : Nat) (value : Bool) : Nat := v ||| (value.toNat <<< 16)

/-- src/registers.rs: `Dr6::breakpoints` — the four per-slot hit flags. -/
def Dr6.breakpoints (v : Nat) : List Bool :=
  [(v &&& 0b0001) != 0, (v &&& 0b0010) != 0, (v &&& 0b0100) != 0, (v &&& 0b1000) != 0]

/-- src/registers.rs: `Dr6::debug_register_access` (bit 13). -/
def Dr6.debug_register_access (v : Nat) : Bool := (v &&& (1 <<< 13)) != 0

/-- src/registers.rs: `Dr6::single_step` (bit 14). -/
def Dr6.single_step (v : Nat) : Bool := (v &&& (1 <<< 14)) != 0

/-- src/registers.rs: `Dr6::task_switch` (bit 15). -/
def Dr6.task_switch (v : Nat) : Bool := (v &&& (1 <<< 15)) != 0

/-- src/registers.rs: `Dr6::reset` — returns the old value, the register is
left holding `1 << 16`; modelled as `(returned old value, new register value)`. -/
def Dr6.reset (v : Nat) : Nat × Nat := (v, 1 <<< 16)

/-- src/context.rs: `reset_dr6` — `mem::replace(&mut ctx.Dr6, 1 << 16)`;
modelled as `(returned old value, updated context)`. -/
def reset_dr6 (ctx : CONTEXT) : Nat × CONTEXT :=
  (ctx.Dr6, { ctx with Dr6 := 1 <<< 16 })

/-- src/registers.rs: `Dr7::enabled_local` (bit `2 * index`). -/
def Dr7.enabled_local (v : Nat) (index : Index) : Bool :=
  (v &&& (1 <<< (2 * index.val))) != 0

/-- src/registers.rs: `Dr7::enabled_global` (bit `1 + 2 * index`). -/
def Dr7.enabled_global (v : Nat) (index : Index) : Bool :=
  (v &&& (1 <<< (1 + 2 * index.val))) != 0

/-- src/registers.rs: `Dr7::condition` — the `.expect` on `from_bits` is
modelled by `Option`. -/
def Dr7.condition (v : Nat) (index : Index) : Option Condition :=
  Condition.from_bits (v >>> (16 + 4 * index.val) &&& 0b11)

/-- src/registers.rs: `Dr7::size` — the `.expect` on `from_bits` is
modelled by `Option`. -/
def Dr7.size (v : Nat) (index : Index) : Option Size :=
  Size.from_bits (v >>> (18 + 4 * index.val) &&& 0b11)

/-- src/registers.rs: `Dr7::set_enabled_local` — clear then OR bit `2 * index`. -/
def Dr7.set_enabled_local (v : Nat) (index : Index) (enabled : Bool) : Nat :=
  (v &&& compl64 (1 <<< (2 * index.val))) ||| (enabled.toNat <<< (2 * index.val))

/-- src/registers.rs: `Dr7::set_enabled_global` — clear then OR bit `1 + 2 * index`. -/
def Dr7.set_enabled_global (v : Nat) (index : Index) (enabled : Bool) : Nat :=
  (v &&& compl64 (1 <<< (1 + 2 * index.val))) ||| (enabled.toNat <<< (1 + 2 * index.val))

/-- src/registers.rs: `Dr7::set_condition` — clear then OR the two bits at `16 + 4 * index`. -/
def Dr7.set_condition (v : Nat) (index : Index) (condition : Condition) : Nat :=
  (v &&& compl64 (0b11 <<< (16 + 4 * index.val))) |||
    (condition.as_bits <<< (16 + 4 * index.val))

/-- src/registers.rs: `Dr7::set_size` — clear then OR the two bits at `18 + 4 * index`. -/
def Dr7.set_size (v : Nat) (index : Index) (size : Size) : Nat :=
  (v &&& compl64 (0b11 <<< (18 + 4 * index.val))) |||
    (size.as_bits <<< (18 + 4 * index.val))

/-- src/registers.rs: `Dr7::clear_breakpoints` — keep only bits 8..=15. -/
def Dr7.clear_breakpoints (v : Nat) : Nat :=
  v &&& 0b00000000000000001111111100000000

/-- src/hwbp_context.rs: `HwbpContext::set_breakpoint` — writes the address
register, then `set_size`, `set_condition`, `set_enabled_local` on Dr7. -/
def HwbpContext.set_breakpoint (ctx : CONTEXT) (bp : HardwareBreakpoint) : CONTEXT :=
  let ctx :=
    match bp.index with
    | .First => { ctx with Dr0 := bp.address }
    | .Second => { ctx with Dr1 := bp.address }
    | .Third => { ctx with Dr2 := bp.address }
    | .Fourth => { ctx with Dr3 := bp.address }
  let dr7 := Dr7.set_size ctx.Dr7 bp.index bp.size
  let dr7 := Dr7.set_condition dr7 bp.index bp.condition
  let dr7 := Dr7.set_enabled_local dr7 bp.index bp.enabled
  { ctx with Dr7 := dr7 }

/-- src/hwbp_context.rs: `HwbpContext::breakpoint`. -/
def HwbpContext.breakpoint (ctx : CONTEXT) (index : Index) : HardwareBreakpoint :=
  raw.get_breakpointD ctx index

/-- src/hwbp_context.rs: `HwbpContext::breakpoints_by_dr6_value` — enumerate
the four Dr6 hit flags and keep the breakpoint of each asserted slot
(the `Index::try_from(i as u8).expect("can't fail")` is modelled with a
default that is proven unreachable). -/
def HwbpContext.breakpoints_by_dr6_value (ctx : CONTEXT) (dr6 : Nat) :
    List HardwareBreakpoint :=
  (Dr6.breakpoints dr6).enum.filterMap fun p =>
    if p.2 then
      some (HwbpContext.breakpoint ctx ((Index.try_from p.1).getD Index.First))
    else none

/-- src/lib.rs: `HwbpContext::breakpoint_by_dr6` —
`Some(self.breakpoint(Index::by_dr6(dr6)?))`. -/
def HwbpContext.breakpoint_by_dr6 (ctx : CONTEXT) (dr6 : Nat) :
    Option HardwareBreakpoint :=
  (Index.by_dr6 dr6).map (HwbpContext.breakpoint ctx)

/-- src/hwbp_context.rs: `HwbpContext::clear_breakpoints`. -/
def HwbpContext.clear_breakpoints (ctx : CONTEXT) : CONTEXT :=
  { ctx with
    Dr7 := Dr7.clear_breakpoints ctx.Dr7
    Dr0 := 0
    Dr1 := 0
    Dr2 := 0
    Dr3 := 0 }

/-- The address register (Dr0–Dr3) belonging to a slot, as selected by the
`match bp.index` arms of src/raw.rs (spec-side accessor used to state frame
properties). -/
def CONTEXT.addressRegister (ctx : CONTEXT) : Index → Nat
  | .First => ctx.Dr0
  | .Second => ctx.Dr1
  | .Third => ctx.Dr2
  | .Fourth => ctx.Dr3

/-! ## Bit-manipulation helper lemmas -/

/-- `Nat.testBit` of the constant `1`. -/
theorem tb1 (j : Nat) : Nat.testBit 1 j = decide (0 = j) := by
  rw [show (1 : Nat) = 2 ^ 0 from rfl, Nat.testBit_two_pow]

/-- `Nat.testBit` of the constant `2`. -/
theorem tb2 (j : Nat) : Nat.testBit 2 j = decide (1 = j) := by
  rw [show (2 : Nat) = 2 ^ 1 from rfl, Nat.testBit_two_pow]

/-- `Nat.testBit` of the constant `3`. -/
theorem tb3 (j : Nat) : Nat.testBit 3 j = decide (j < 2) := by
  rw [show (3 : Nat) = 2 ^ 2 - 1 from rfl, Nat.testBit_two_pow_sub_one]

/-- `Nat.testBit` of the constant `15`. -/
theorem tb15 (j : Nat) : Nat.testBit 15 j = decide (j < 4) := by
  rw [show (15 : Nat) = 2 ^ 4 - 1 from rfl, Nat.testBit_two_pow_sub_one]

theorem and3_0 : (0 : Nat) &&& 3 = 0 := by decide
theorem and3_1 : (1 : Nat) &&& 3 = 1 := by decide
theorem and3_2 : (2 : Nat) &&& 3 = 2 := by decide
theorem and3_3 : (3 : Nat) &&& 3 = 3 := by decide

/-- A two-bit field extraction equals the weighted sum of its two bits. -/
theorem extract2 (x n : Nat) :
    x >>> n &&& 3 = 2 * (x.testBit (n + 1)).toNat + (x.testBit n).toNat := by
  have h3 : (3 : Nat) = 2 ^ 2 - 1 := rfl
  rw [h3, Nat.and_pow_two_sub_one_eq_mod, Nat.shiftRight_eq_div_pow,
    Nat.testBit_to_div_mod, Nat.testBit_to_div_mod]
  have hd : x / 2 ^ (n + 1) = x / 2 ^ n / 2 := by
    rw [Nat.pow_succ, Nat.div_div_eq_div_mul]
  rw [hd]
  rcases Nat.mod_two_eq_zero_or_one (x / 2 ^ n) with h | h <;>
    rcases Nat.mod_two_eq_zero_or_one (x / 2 ^ n / 2) with h2 | h2 <;>
      simp [h, h2] <;> omega

/-- Testing a single-bit mask against a word is `Nat.testBit`. -/
theorem and_shift_one_bne (x n : Nat) :
    ((x &&& (1 <<< n)) != 0) = x.testBit n := by
  rw [Nat.one_shiftLeft]
  cases h : x.testBit n
  · have hz : x &&& 2 ^ n = 0 := by
      apply Nat.eq_of_testBit_eq
      intro i
      rw [Nat.testBit_and, Nat.zero_testBit, Nat.testBit_two_pow]
      by_cases hi : n = i
      · subst hi; simp [h]
      · simp [hi]
    simp [hz]
  · have htb : (x &&& 2 ^ n).testBit n = true := by
      simp [Nat.testBit_and, h, Nat.testBit_two_pow_self]
    have hnz : x &&& 2 ^ n ≠ 0 := by
      intro hz
      rw [hz] at htb
      simp at htb
    simp [hnz]

/-! ## C1: encode/decode round-trip -/

/-- Writing a breakpoint and reading back the same slot returns the same
descriptor (shared helper; the C1 claim theorem restates it). -/
theorem set_get_breakpoint_roundtrip (ctx : CONTEXT) (bp : HardwareBreakpoint) :
    raw.get_breakpoint (raw.set_breakpoint ctx bp) bp.index = some bp := by
  obtain ⟨e, i, a, s, c⟩ := bp
  cases i <;> cases c <;> cases s <;> cases e <;>
    simp only [raw.set_breakpoint, raw.get_breakpoint, Index.val,
      Condition.as_bits, Condition.from_bits, Size.as_bits, Size.from_bits,
      extract2, and_shift_one_bne, compl64, Nat.testBit_or, Nat.testBit_and,
      Nat.testBit_xor, Nat.testBit_shiftLeft, Nat.testBit_two_pow_sub_one,
      Nat.testBit_bool_to_nat, Nat.zero_testBit, tb1, tb2, tb3, tb15, and3_0,
      and3_1, and3_2, and3_3, ge_iff_le, Nat.reduceLT, Nat.reduceLeDiff, Nat.reduceSub,
      Nat.reduceEqDiff, Nat.reduceMul, Nat.reduceAdd, decide_True,
      decide_False, Bool.true_and, Bool.false_and, Bool.and_true,
      Bool.and_false, Bool.or_true, Bool.or_false, Bool.true_or, Bool.false_or,
      Bool.xor_false, Bool.xor_true, Bool.not_true, Bool.not_false,
      Bool.true_xor, Bool.false_xor, Bool.not_not, Bool.toNat_true,
      Bool.toNat_false, and_true, true_and, and_self]

/-- C1.  Encode/decode round-trip: for every slot index, every size variant,
every condition variant, both enabled states, every address, and any starting
register contents, writing a breakpoint descriptor with `raw::set_breakpoint`
and reading the same slot back with `raw::get_breakpoint` returns exactly the
descriptor that was written. -/
theorem c1_set_get_roundtrip (ctx : CONTEXT) (bp : HardwareBreakpoint) :
    raw.get_breakpoint (raw.set_breakpoint ctx bp) bp.index = some bp :=
  set_get_breakpoint_roundtrip ctx bp

/-! ## Window lemmas for testBit of masked/shifted words -/

/-- Reading inside an OR-ed window that starts at or before the bit. -/
theorem or_window (x v k j : Nat) (hk : k ≤ j) :
    (x ||| (v <<< k)).testBit j = (x.testBit j || v.testBit (j - k)) := by
  simp only [Nat.testBit_or, Nat.testBit_shiftLeft, ge_iff_le, hk, decide_True,
    Bool.true_and]

/-- An OR-ed `w`-bit value shifted to `k` does not affect bits outside `[k, k+w)`. -/
theorem or_out (x v k w j : Nat) (hv : v < 2 ^ w) (hj : ¬(k ≤ j ∧ j < k + w)) :
    (x ||| (v <<< k)).testBit j = x.testBit j := by
  rw [Nat.testBit_or]
  rcases Nat.lt_or_ge j k with h | h
  · simp only [Nat.testBit_shiftLeft, ge_iff_le, Nat.not_le.mpr h, decide_False,
      Bool.false_and, Bool.or_false]
  · have hw : k + w ≤ j := by omega
    have hv' : v < 2 ^ (j - k) :=
      Nat.lt_of_lt_of_le hv (Nat.pow_le_pow_right (by norm_num) (by omega))
    simp only [Nat.testBit_shiftLeft, ge_iff_le, h, decide_True, Bool.true_and,
      Nat.testBit_lt_two_pow hv', Bool.or_false]

/-- Clearing a `w`-bit window at `k` does not affect bits below 64 outside the window. -/
theorem andc_out (x m k w j : Nat) (hj64 : j < 64) (hm : m < 2 ^ w)
    (hj : ¬(k ≤ j ∧ j < k + w)) :
    (x &&& compl64 (m <<< k)).testBit j = x.testBit j := by
  have hmb : (m <<< k).testBit j = false := by
    rcases Nat.lt_or_ge j k with h | h
    · simp only [Nat.testBit_shiftLeft, ge_iff_le, Nat.not_le.mpr h, decide_False,
        Bool.false_and]
    · have hv' : m < 2 ^ (j - k) :=
        Nat.lt_of_lt_of_le hm (Nat.pow_le_pow_right (by norm_num) (by omega))
      simp only [Nat.testBit_shiftLeft, ge_iff_le, h, decide_True, Bool.true_and,
        Nat.testBit_lt_two_pow hv']
  simp only [compl64, Nat.testBit_and, Nat.testBit_xor, Nat.testBit_two_pow_sub_one,
    hj64, decide_True, hmb, Bool.xor_false, Bool.and_true]

/-- Clearing a window at `k` kills every bit of the window (below 64). -/
theorem andc_in (x m k j : Nat) (hk : k ≤ j) (hj64 : j < 64)
    (hm : m.testBit (j - k) = true) :
    (x &&& compl64 (m <<< k)).testBit j = false := by
  simp only [compl64, Nat.testBit_and, Nat.testBit_xor, Nat.testBit_two_pow_sub_one,
    hj64, decide_True, Nat.testBit_shiftLeft, ge_iff_le, hk, Bool.true_and, hm,
    Bool.xor_true, Bool.not_true, Bool.and_false]

/-- A `compl64`-masked word has no bits at or above 64 (when the cleared
window itself lies below 64). -/
theorem andc_high (x m k w j : Nat) (hm : m < 2 ^ w) (hkw : k + w ≤ 64)
    (hj : 64 ≤ j) :
    (x &&& compl64 (m <<< k)).testBit j = false := by
  have hv' : m < 2 ^ (j - k) :=
    Nat.lt_of_lt_of_le hm (Nat.pow_le_pow_right (by norm_num) (by omega))
  simp only [compl64, Nat.testBit_and, Nat.testBit_xor, Nat.testBit_two_pow_sub_one,
    Nat.not_lt.mpr hj, decide_False, Nat.testBit_shiftLeft, ge_iff_le,
    Nat.testBit_lt_two_pow hv', Bool.and_false, Bool.false_xor, Bool.xor_false]

/-! ## Characterization of the Dr7 word written by the two set-breakpoint paths -/

/-- Per-bit description of the Dr7 word produced by `raw::set_breakpoint`
for slot 0 (local-enable bit 0, condition bits 16–17, size bits 18–19). -/
theorem raw_dr7_tb_first (x : Nat) (c : Condition) (s : Size) (e : Bool) (j : Nat) :
    ((((x &&& compl64 (15 <<< 16)) ||| ((c.as_bits &&& 3) <<< 16) |||
        ((s.as_bits &&& 3) <<< 18)) &&& compl64 (1 <<< 0)) |||
      (e.toNat <<< 0)).testBit j =
    (if j = 0 then e
     else if 16 ≤ j ∧ j < 18 then c.as_bits.testBit (j - 16)
     else if 18 ≤ j ∧ j < 20 then s.as_bits.testBit (j - 18)
     else x.testBit j && decide (j < 64)) := by
  have hc : c.as_bits &&& 3 < 4 := Nat.lt_succ_of_le Nat.and_le_right
  have hs : s.as_bits &&& 3 < 4 := Nat.lt_succ_of_le Nat.and_le_right
  have he : e.toNat < 2 := Bool.toNat_lt e
  by_cases h0 : j = 0
  · subst h0
    rw [or_window _ _ 0 0 (Nat.le_refl 0),
      andc_in _ 1 0 0 (Nat.le_refl 0) (by norm_num) (by decide)]
    cases e <;> simp
  · by_cases hcw : 16 ≤ j ∧ j < 18
    · rw [or_out _ _ 0 1 j he (by omega),
        andc_out _ 1 0 1 j (by omega) (by norm_num) (by omega),
        or_out _ _ 18 2 j hs (by omega),
        or_window _ _ 16 j hcw.1,
        andc_in _ 15 16 j hcw.1 (by omega) (by rw [tb15, decide_eq_true_eq]; omega)]
      rw [if_neg h0, if_pos hcw]
      have hj2 : j - 16 < 2 := by omega
      simp [Nat.testBit_and, tb3, hj2]
    · by_cases hsw : 18 ≤ j ∧ j < 20
      · rw [or_out _ _ 0 1 j he (by omega),
          andc_out _ 1 0 1 j (by omega) (by norm_num) (by omega),
          or_window _ _ 18 j hsw.1,
          or_out _ _ 16 2 j hc (by omega),
          andc_in _ 15 16 j (by omega) (by omega)
            (by rw [tb15, decide_eq_true_eq]; omega)]
        rw [if_neg h0, if_neg hcw, if_pos hsw]
        have hj2 : j - 18 < 2 := by omega
        simp [Nat.testBit_and, tb3, hj2]
      · rcases Nat.lt_or_ge j 64 with h64 | h64
        · rw [or_out _ _ 0 1 j he (by omega),
            andc_out _ 1 0 1 j (by omega) (by norm_num) (by omega),
            or_out _ _ 18 2 j hs (by omega),
            or_out _ _ 16 2 j hc (by omega),
            andc_out _ 15 16 4 j (by omega) (by norm_num) (by omega)]
          rw [if_neg h0, if_neg hcw, if_neg hsw, decide_eq_true h64, Bool.and_true]
        · rw [or_out _ _ 0 1 j he (by omega),
            andc_high _ 1 0 1 j (by norm_num) (by norm_num) h64]
          rw [if_neg h0, if_neg hcw, if_neg hsw,
            decide_eq_false (by omega : ¬ j < 64), Bool.and_false]

/-- Per-bit description of the Dr7 word produced by `raw::set_breakpoint`
for slot 1 (local-enable bit 2, condition bits 20-21, size bits 22-23). -/
theorem raw_dr7_tb_second (x : Nat) (c : Condition) (s : Size) (e : Bool) (j : Nat) :
    ((((x &&& compl64 (15 <<< 20)) ||| ((c.as_bits &&& 3) <<< 20) |||
        ((s.as_bits &&& 3) <<< 22)) &&& compl64 (1 <<< 2)) |||
      (e.toNat <<< 2)).testBit j =
    (if j = 2 then e
     else if 20 ≤ j ∧ j < 22 then c.as_bits.testBit (j - 20)
     else if 22 ≤ j ∧ j < 24 then s.as_bits.testBit (j - 22)
     else x.testBit j && decide (j < 64)) := by
  have hc : c.as_bits &&& 3 < 4 := Nat.lt_succ_of_le Nat.and_le_right
  have hs : s.as_bits &&& 3 < 4 := Nat.lt_succ_of_le Nat.and_le_right
  have he : e.toNat < 2 := Bool.toNat_lt e
  by_cases h0 : j = 2
  · subst h0
    rw [or_window _ _ 2 2 (Nat.le_refl 2),
      andc_in _ 1 2 2 (Nat.le_refl 2) (by norm_num) (by decide)]
    cases e <;> simp
  · by_cases hcw : 20 ≤ j ∧ j < 22
    · rw [or_out _ _ 2 1 j he (by omega),
        andc_out _ 1 2 1 j (by omega) (by norm_num) (by omega),
        or_out _ _ 22 2 j hs (by omega),
        or_window _ _ 20 j hcw.1,
        andc_in _ 15 20 j hcw.1 (by omega) (by rw [tb15, decide_eq_true_eq]; omega)]
      rw [if_neg h0, if_pos hcw]
      have hj2 : j - 20 < 2 := by omega
      simp [Nat.testBit_and, tb3, hj2]
    · by_cases hsw : 22 ≤ j ∧ j < 24
      · rw [or_out _ _ 2 1 j he (by omega),
          andc_out _ 1 2 1 j (by omega) (by norm_num) (by omega),
          or_window _ _ 22 j hsw.1,
          or_out _ _ 20 2 j hc (by omega),
          andc_in _ 15 20 j (by omega) (by omega)
            (by rw [tb15, decide_eq_true_eq]; omega)]
        rw [if_neg h0, if_neg hcw, if_pos hsw]
        have hj2 : j - 22 < 2 := by omega
        simp [Nat.testBit_and, tb3, hj2]
      · rcases Nat.lt_or_ge j 64 with h64 | h64
        · rw [or_out _ _ 2 1 j he (by omega),
            andc_out _ 1 2 1 j (by omega) (by norm_num) (by omega),
            or_out _ _ 22 2 j hs (by omega),
            or_out _ _ 20 2 j hc (by omega),
            andc_out _ 15 20 4 j (by omega) (by norm_num) (by omega)]
          rw [if_neg h0, if_neg hcw, if_neg hsw, decide_eq_true h64, Bool.and_true]
        · rw [or_out _ _ 2 1 j he (by omega),
            andc_high _ 1 2 1 j (by norm_num) (by norm_num) h64]
          rw [if_neg h0, if_neg hcw, if_neg hsw,
            decide_eq_false (by omega : ¬ j < 64), Bool.and_false]

/-- Per-bit description of the Dr7 word produced by `raw::set_breakpoint`
for slot 2 (local-enable bit 4, condition bits 24-25, size bits 26-27). -/
theorem raw_dr7_tb_third (x : Nat) (c : Condition) (s : Size) (e : Bool) (j : Nat) :
    ((((x &&& compl64 (15 <<< 24)) ||| ((c.as_bits &&& 3) <<< 24) |||
        ((s.as_bits &&& 3) <<< 26)) &&& compl64 (1 <<< 4)) |||
      (e.toNat <<< 4)).testBit j =
    (if j = 4 then e
     else if 24 ≤ j ∧ j < 26 then c.as_bits.testBit (j - 24)
     else if 26 ≤ j ∧ j < 28 then s.as_bits.testBit (j - 26)
     else x.testBit j && decide (j < 64)) := by
  have hc : c.as_bits &&& 3 < 4 := Nat.lt_succ_of_le Nat.and_le_right
  have hs : s.as_bits &&& 3 < 4 := Nat.lt_succ_of_le Nat.and_le_right
  have he : e.toNat < 2 := Bool.toNat_lt e
  by_cases h0 : j = 4
  · subst h0
    rw [or_window _ _ 4 4 (Nat.le_refl 4),
      andc_in _ 1 4 4 (Nat.le_refl 4) (by norm_num) (by decide)]
    cases e <;> simp
  · by_cases hcw : 24 ≤ j ∧ j < 26
    · rw [or_out _ _ 4 1 j he (by omega),
        andc_out _ 1 4 1 j (by omega) (by norm_num) (by omega),
        or_out _ _ 26 2 j hs (by omega),
        or_window _ _ 24 j hcw.1,
        andc_in _ 15 24 j hcw.1 (by omega) (by rw [tb15, decide_eq_true_eq]; omega)]
      rw [if_neg h0, if_pos hcw]
      have hj2 : j - 24 < 2 := by omega
      simp [Nat.testBit_and, tb3, hj2]
    · by_cases hsw : 26 ≤ j ∧ j < 28
      · rw [or_out _ _ 4 1 j he (by omega),
          andc_out _ 1 4 1 j (by omega) (by norm_num) (by omega),
          or_window _ _ 26 j hsw.1,
          or_out _ _ 24 2 j hc (by omega),
          andc_in _ 15 24 j (by omega) (by omega)
            (by rw [tb15, decide_eq_true_eq]; omega)]
        rw [if_neg h0, if_neg hcw, if_pos hsw]
        have hj2 : j - 26 < 2 := by omega
        simp [Nat.testBit_and, tb3, hj2]
      · rcases Nat.lt_or_ge j 64 with h64 | h64
        · rw [or_out _ _ 4 1 j he (by omega),
            andc_out _ 1 4 1 j (by omega) (by norm_num) (by omega),
            or_out _ _ 26 2 j hs (by omega),
            or_out _ _ 24 2 j hc (by omega),
            andc_out _ 15 24 4 j (by omega) (by norm_num) (by omega)]
          rw [if_neg h0, if_neg hcw, if_neg hsw, decide_eq_true h64, Bool.and_true]
        · rw [or_out _ _ 4 1 j he (by omega),
            andc_high _ 1 4 1 j (by norm_num) (by norm_num) h64]
          rw [if_neg h0, if_neg hcw, if_neg hsw,
            decide_eq_false (by omega : ¬ j < 64), Bool.and_false]

/-- Per-bit description of the Dr7 word produced by `raw::set_breakpoint`
for slot 3 (local-enable bit 6, condition bits 28-29, size bits 30-31). -/
theorem raw_dr7_tb_fourth (x : Nat) (c : Condition) (s : Size) (e : Bool) (j : Nat) :
    ((((x &&& compl64 (15 <<< 28)) ||| ((c.as_bits &&& 3) <<< 28) |||
        ((s.as_bits &&& 3) <<< 30)) &&& compl64 (1 <<< 6)) |||
      (e.toNat <<< 6)).testBit j =
    (if j = 6 then e
     else if 28 ≤ j ∧ j < 30 then c.as_bits.testBit (j - 28)
     else if 30 ≤ j ∧ j < 32 then s.as_bits.testBit (j - 30)
     else x.testBit j && decide (j < 64)) := by
  have hc : c.as_bits &&& 3 < 4 := Nat.lt_succ_of_le Nat.and_le_right
  have hs : s.as_bits &&& 3 < 4 := Nat.lt_succ_of_le Nat.and_le_right
  have he : e.toNat < 2 := Bool.toNat_lt e
  by_cases h0 : j = 6
  · subst h0
    rw [or_window _ _ 6 6 (Nat.le_refl 6),
      andc_in _ 1 6 6 (Nat.le_refl 6) (by norm_num) (by decide)]
    cases e <;> simp
  · by_cases hcw : 28 ≤ j ∧ j < 30
    · rw [or_out _ _ 6 1 j he (by omega),
        andc_out _ 1 6 1 j (by omega) (by norm_num) (by omega),
        or_out _ _ 30 2 j hs (by omega),
        or_window _ _ 28 j hcw.1,
        andc_in _ 15 28 j hcw.1 (by omega) (by rw [tb15, decide_eq_true_eq]; omega)]
      rw [if_neg h0, if_pos hcw]
      have hj2 : j - 28 < 2 := by omega
      simp [Nat.testBit_and, tb3, hj2]
    · by_cases hsw : 30 ≤ j ∧ j < 32
      · rw [or_out _ _ 6 1 j he (by omega),
          andc_out _ 1 6 1 j (by omega) (by norm_num) (by omega),
          or_window _ _ 30 j hsw.1,
          or_out _ _ 28 2 j hc (by omega),
          andc_in _ 15 28 j (by omega) (by omega)
            (by rw [tb15, decide_eq_true_eq]; omega)]
        rw [if_neg h0, if_neg hcw, if_pos hsw]
        have hj2 : j - 30 < 2 := by omega
        simp [Nat.testBit_and, tb3, hj2]
      · rcases Nat.lt_or_ge j 64 with h64 | h64
        · rw [or_out _ _ 6 1 j he (by omega),
            andc_out _ 1 6 1 j (by omega) (by norm_num) (by omega),
            or_out _ _ 30 2 j hs (by omega),
            or_out _ _ 28 2 j hc (by omega),
            andc_out _ 15 28 4 j (by omega) (by norm_num) (by omega)]
          rw [if_neg h0, if_neg hcw, if_neg hsw, decide_eq_true h64, Bool.and_true]
        · rw [or_out _ _ 6 1 j he (by omega),
            andc_high _ 1 6 1 j (by norm_num) (by norm_num) h64]
          rw [if_neg h0, if_neg hcw, if_neg hsw,
            decide_eq_false (by omega : ¬ j < 64), Bool.and_false]

/-- Per-bit description of the Dr7 word produced by
`HwbpContext::set_breakpoint` (via `Dr7::set_size`, `Dr7::set_condition`,
`Dr7::set_enabled_local`) for slot 0. -/
theorem hwbp_dr7_tb_first (x : Nat) (c : Condition) (s : Size) (e : Bool) (j : Nat) :
    ((((((x &&& compl64 (3 <<< 18)) ||| (s.as_bits <<< 18)) &&&
        compl64 (3 <<< 16)) ||| (c.as_bits <<< 16)) &&& compl64 (1 <<< 0)) |||
      (e.toNat <<< 0)).testBit j =
    (if j = 0 then e
     else if 16 ≤ j ∧ j < 18 then c.as_bits.testBit (j - 16)
     else if 18 ≤ j ∧ j < 20 then s.as_bits.testBit (j - 18)
     else x.testBit j && decide (j < 64)) := by
  have hc : c.as_bits < 4 := by cases c <;> decide
  have hs : s.as_bits < 4 := by cases s <;> decide
  have he : e.toNat < 2 := Bool.toNat_lt e
  by_cases h0 : j = 0
  · subst h0
    rw [or_window _ _ 0 0 (Nat.le_refl 0),
      andc_in _ 1 0 0 (Nat.le_refl 0) (by norm_num) (by decide)]
    cases e <;> simp
  · by_cases hcw : 16 ≤ j ∧ j < 18
    · rw [or_out _ _ 0 1 j he (by omega),
        andc_out _ 1 0 1 j (by omega) (by norm_num) (by omega),
        or_window _ _ 16 j hcw.1,
        andc_in _ 3 16 j hcw.1 (by omega) (by rw [tb3, decide_eq_true_eq]; omega)]
      rw [if_neg h0, if_pos hcw]
      simp
    · by_cases hsw : 18 ≤ j ∧ j < 20
      · rw [or_out _ _ 0 1 j he (by omega),
          andc_out _ 1 0 1 j (by omega) (by norm_num) (by omega),
          or_out _ _ 16 2 j hc (by omega),
          andc_out _ 3 16 2 j (by omega) (by norm_num) (by omega),
          or_window _ _ 18 j hsw.1,
          andc_in _ 3 18 j hsw.1 (by omega) (by rw [tb3, decide_eq_true_eq]; omega)]
        rw [if_neg h0, if_neg hcw, if_pos hsw]
        simp
      · rcases Nat.lt_or_ge j 64 with h64 | h64
        · rw [or_out _ _ 0 1 j he (by omega),
            andc_out _ 1 0 1 j (by omega) (by norm_num) (by omega),
            or_out _ _ 16 2 j hc (by omega),
            andc_out _ 3 16 2 j (by omega) (by norm_num) (by omega),
            or_out _ _ 18 2 j hs (by omega),
            andc_out _ 3 18 2 j (by omega) (by norm_num) (by omega)]
          rw [if_neg h0, if_neg hcw, if_neg hsw, decide_eq_true h64, Bool.and_true]
        · rw [or_out _ _ 0 1 j he (by omega),
            andc_high _ 1 0 1 j (by norm_num) (by norm_num) h64]
          rw [if_neg h0, if_neg hcw, if_neg hsw,
            decide_eq_false (by omega : ¬ j < 64), Bool.and_false]

/-- Per-bit description of the Dr7 word produced by
`HwbpContext::set_breakpoint` (via `Dr7::set_size`, `Dr7::set_condition`,
`Dr7::set_enabled_local`) for slot 1. -/
theorem hwbp_dr7_tb_second (x : Nat) (c : Condition) (s : Size) (e : Bool) (j : Nat) :
    ((((((x &&& compl64 (3 <<< 22)) ||| (s.as_bits <<< 22)) &&&
        compl64 (3 <<< 20)) ||| (c.as_bits <<< 20)) &&& compl64 (1 <<< 2)) |||
      (e.toNat <<< 2)).testBit j =
    (if j = 2 then e
     else if 20 ≤ j ∧ j < 22 then c.as_bits.testBit (j - 20)
     else if 22 ≤ j ∧ j < 24 then s.as_bits.testBit (j - 22)
     else x.testBit j && decide (j < 64)) := by
  have hc : c.as_bits < 4 := by cases c <;> decide
  have hs : s.as_bits < 4 := by cases s <;> decide
  have he : e.toNat < 2 := Bool.toNat_lt e
  by_cases h0 : j = 2
  · subst h0
    rw [or_window _ _ 2 2 (Nat.le_refl 2),
      andc_in _ 1 2 2 (Nat.le_refl 2) (by norm_num) (by decide)]
    cases e <;> simp
  · by_cases hcw : 20 ≤ j ∧ j < 22
    · rw [or_out _ _ 2 1 j he (by omega),
        andc_out _ 1 2 1 j (by omega) (by norm_num) (by omega),
        or_window _ _ 20 j hcw.1,
        andc_in _ 3 20 j hcw.1 (by omega) (by rw [tb3, decide_eq_true_eq]; omega)]
      rw [if_neg h0, if_pos hcw]
      simp
    · by_cases hsw : 22 ≤ j ∧ j < 24
      · rw [or_out _ _ 2 1 j he (by omega),
          andc_out _ 1 2 1 j (by omega) (by norm_num) (by omega),
          or_out _ _ 20 2 j hc (by omega),
          andc_out _ 3 20 2 j (by omega) (by norm_num) (by omega),
          or_window _ _ 22 j hsw.1,
          andc_in _ 3 22 j hsw.1 (by omega) (by rw [tb3, decide_eq_true_eq]; omega)]
        rw [if_neg h0, if_neg hcw, if_pos hsw]
        simp
      · rcases Nat.lt_or_ge j 64 with h64 | h64
        · rw [or_out _ _ 2 1 j he (by omega),
            andc_out _ 1 2 1 j (by omega) (by norm_num) (by omega),
            or_out _ _ 20 2 j hc (by omega),
            andc_out _ 3 20 2 j (by omega) (by norm_num) (by omega),
            or_out _ _ 22 2 j hs (by omega),
            andc_out _ 3 22 2 j (by omega) (by norm_num) (by omega)]
          rw [if_neg h0, if_neg hcw, if_neg hsw, decide_eq_true h64, Bool.and_true]
        · rw [or_out _ _ 2 1 j he (by omega),
            andc_high _ 1 2 1 j (by norm_num) (by norm_num) h64]
          rw [if_neg h0, if_neg hcw, if_neg hsw,
            decide_eq_false (by omega : ¬ j < 64), Bool.and_false]

/-- Per-bit description of the Dr7 word produced by
`HwbpContext::set_breakpoint` (via `Dr7::set_size`, `Dr7::set_condition`,
`Dr7::set_enabled_local`) for slot 2. -/
theorem hwbp_dr7_tb_third (x : Nat) (c : Condition) (s : Size) (e : Bool) (j : Nat) :
    ((((((x &&& compl64 (3 <<< 26)) ||| (s.as_bits <<< 26)) &&&
        compl64 (3 <<< 24)) ||| (c.as_bits <<< 24)) &&& compl64 (1 <<< 4)) |||
      (e.toNat <<< 4)).testBit j =
    (if j = 4 then e
     else if 24 ≤ j ∧ j < 26 then c.as_bits.testBit (j - 24)
     else if 26 ≤ j ∧ j < 28 then s.as_bits.testBit (j - 26)
     else x.testBit j && decide (j < 64)) := by
  have hc : c.as_bits < 4 := by cases c <;> decide
  have hs : s.as_bits < 4 := by cases s <;> decide
  have he : e.toNat < 2 := Bool.toNat_lt e
  by_cases h0 : j = 4
  · subst h0
    rw [or_window _ _ 4 4 (Nat.le_refl 4),
      andc_in _ 1 4 4 (Nat.le_refl 4) (by norm_num) (by decide)]
    cases e <;> simp
  · by_cases hcw : 24 ≤ j ∧ j < 26
    · rw [or_out _ _ 4 1 j he (by omega),
        andc_out _ 1 4 1 j (by omega) (by norm_num) (by omega),
        or_window _ _ 24 j hcw.1,
        andc_in _ 3 24 j hcw.1 (by omega) (by rw [tb3, decide_eq_true_eq]; omega)]
      rw [if_neg h0, if_pos hcw]
      simp
    · by_cases hsw : 26 ≤ j ∧ j < 28
      · rw [or_out _ _ 4 1 j he (by omega),
          andc_out _ 1 4 1 j (by omega) (by norm_num) (by omega),
          or_out _ _ 24 2 j hc (by omega),
          andc_out _ 3 24 2 j (by omega) (by norm_num) (by omega),
          or_window _ _ 26 j hsw.1,
          andc_in _ 3 26 j hsw.1 (by omega) (by rw [tb3, decide_eq_true_eq]; omega)]
        rw [if_neg h0, if_neg hcw, if_pos hsw]
        simp
      · rcases Nat.lt_or_ge j 64 with h64 | h64
        · rw [or_out _ _ 4 1 j he (by omega),
            andc_out _ 1 4 1 j (by omega) (by norm_num) (by omega),
            or_out _ _ 24 2 j hc (by omega),
            andc_out _ 3 24 2 j (by omega) (by norm_num) (by omega),
            or_out _ _ 26 2 j hs (by omega),
            andc_out _ 3 26 2 j (by omega) (by norm_num) (by omega)]
          rw [if_neg h0, if_neg hcw, if_neg hsw, decide_eq_true h64, Bool.and_true]
        · rw [or_out _ _ 4 1 j he (by omega),
            andc_high _ 1 4 1 j (by norm_num) (by norm_num) h64]
          rw [if_neg h0, if_neg hcw, if_neg hsw,
            decide_eq_false (by omega : ¬ j < 64), Bool.and_false]

/-- Per-bit description of the Dr7 word produced by
`HwbpContext::set_breakpoint` (via `Dr7::set_size`, `Dr7::set_condition`,
`Dr7::set_enabled_local`) for slot 3. -/
theorem hwbp_dr7_tb_fourth (x : Nat) (c : Condition) (s : Size) (e : Bool) (j : Nat) :
    ((((((x &&& compl64 (3 <<< 30)) ||| (s.as_bits <<< 30)) &&&
        compl64 (3 <<< 28)) ||| (c.as_bits <<< 28)) &&& compl64 (1 <<< 6)) |||
      (e.toNat <<< 6)).testBit j =
    (if j = 6 then e
     else if 28 ≤ j ∧ j < 30 then c.as_bits.testBit (j - 28)
     else if 30 ≤ j ∧ j < 32 then s.as_bits.testBit (j - 30)
     else x.testBit j && decide (j < 64)) := by
  have hc : c.as_bits < 4 := by cases c <;> decide
  have hs : s.as_bits < 4 := by cases s <;> decide
  have he : e.toNat < 2 := Bool.toNat_lt e
  by_cases h0 : j = 6
  · subst h0
    rw [or_window _ _ 6 6 (Nat.le_refl 6),
      andc_in _ 1 6 6 (Nat.le_refl 6) (by norm_num) (by decide)]
    cases e <;> simp
  · by_cases hcw : 28 ≤ j ∧ j < 30
    · rw [or_out _ _ 6 1 j he (by omega),
        andc_out _ 1 6 1 j (by omega) (by norm_num) (by omega),
        or_window _ _ 28 j hcw.1,
        andc_in _ 3 28 j hcw.1 (by omega) (by rw [tb3, decide_eq_true_eq]; omega)]
      rw [if_neg h0, if_pos hcw]
      simp
    · by_cases hsw : 30 ≤ j ∧ j < 32
      · rw [or_out _ _ 6 1 j he (by omega),
          andc_out _ 1 6 1 j (by omega) (by norm_num) (by omega),
          or_out _ _ 28 2 j hc (by omega),
          andc_out _ 3 28 2 j (by omega) (by norm_num) (by omega),
          or_window _ _ 30 j hsw.1,
          andc_in _ 3 30 j hsw.1 (by omega) (by rw [tb3, decide_eq_true_eq]; omega)]
        rw [if_neg h0, if_neg hcw, if_pos hsw]
        simp
      · rcases Nat.lt_or_ge j 64 with h64 | h64
        · rw [or_out _ _ 6 1 j he (by omega),
            andc_out _ 1 6 1 j (by omega) (by norm_num) (by omega),
            or_out _ _ 28 2 j hc (by omega),
            andc_out _ 3 28 2 j (by omega) (by norm_num) (by omega),
            or_out _ _ 30 2 j hs (by omega),
            andc_out _ 3 30 2 j (by omega) (by norm_num) (by omega)]
          rw [if_neg h0, if_neg hcw, if_neg hsw, decide_eq_true h64, Bool.and_true]
        · rw [or_out _ _ 6 1 j he (by omega),
            andc_high _ 1 6 1 j (by norm_num) (by norm_num) h64]
          rw [if_neg h0, if_neg hcw, if_neg hsw,
            decide_eq_false (by omega : ¬ j < 64), Bool.and_false]

/-! ## C2: frame property of set_breakpoint -/

/-- C2.  Slot independence and frame: `raw::set_breakpoint` changes only the
written slot's address register, its condition/size bits (`16+4i .. 19+4i`)
and its local-enable bit (`2i`) in Dr7; every other Dr7 bit below 64 —
including the other slots' bits, the reserved bits 8–15, and the slot's own
global-enable bit (`2i+1`) — is unchanged, Dr6 and the other three address
registers are unchanged, and `HwbpContext::set_breakpoint` produces exactly
the same context. -/
theorem c2_set_breakpoint_frame (ctx : CONTEXT) (bp : HardwareBreakpoint) :
    (∀ j, j < 64 → j ≠ 2 * bp.index.val →
        ¬(16 + 4 * bp.index.val ≤ j ∧ j < 20 + 4 * bp.index.val) →
        (raw.set_breakpoint ctx bp).Dr7.testBit j = ctx.Dr7.testBit j) ∧
    (raw.set_breakpoint ctx bp).Dr6 = ctx.Dr6 ∧
    (raw.set_breakpoint ctx bp).addressRegister bp.index = bp.address ∧
    (∀ i : Index, i ≠ bp.index →
        (raw.set_breakpoint ctx bp).addressRegister i = ctx.addressRegister i) ∧
    HwbpContext.set_breakpoint ctx bp = raw.set_breakpoint ctx bp := by
  obtain ⟨e, i, a, s, c⟩ := bp
  obtain ⟨d0, d1, d2, d3, d6, d7⟩ := ctx
  cases i
  · refine ⟨?_, rfl, rfl, ?_, ?_⟩
    · intro j hj64 hst hw
      simp only [Index.val, Nat.reduceMul, Nat.reduceAdd] at hst hw
      simp only [raw.set_breakpoint, Index.val, Nat.reduceMul, Nat.reduceAdd]
      rw [raw_dr7_tb_first]
      rw [if_neg (by omega), if_neg (by omega), if_neg (by omega),
        decide_eq_true hj64, Bool.and_true]
    · intro i2 hi
      cases i2 <;> first | rfl | exact absurd rfl hi
    · simp only [HwbpContext.set_breakpoint, raw.set_breakpoint, Dr7.set_size,
        Dr7.set_condition, Dr7.set_enabled_local, Index.val, Nat.reduceMul,
        Nat.reduceAdd]
      rw [CONTEXT.mk.injEq]
      refine ⟨rfl, rfl, rfl, rfl, rfl, ?_⟩
      apply Nat.eq_of_testBit_eq
      intro j
      rw [hwbp_dr7_tb_first, raw_dr7_tb_first]
  · refine ⟨?_, rfl, rfl, ?_, ?_⟩
    · intro j hj64 hst hw
      simp only [Index.val, Nat.reduceMul, Nat.reduceAdd] at hst hw
      simp only [raw.set_breakpoint, Index.val, Nat.reduceMul, Nat.reduceAdd]
      rw [raw_dr7_tb_second]
      rw [if_neg (by omega), if_neg (by omega), if_neg (by omega),
        decide_eq_true hj64, Bool.and_true]
    · intro i2 hi
      cases i2 <;> first | rfl | exact absurd rfl hi
    · simp only [HwbpContext.set_breakpoint, raw.set_breakpoint, Dr7.set_size,
        Dr7.set_condition, Dr7.set_enabled_local, Index.val, Nat.reduceMul,
        Nat.reduceAdd]
      rw [CONTEXT.mk.injEq]
      refine ⟨rfl, rfl, rfl, rfl, rfl, ?_⟩
      apply Nat.eq_of_testBit_eq
      intro j
      rw [hwbp_dr7_tb_second, raw_dr7_tb_second]
  · refine ⟨?_, rfl, rfl, ?_, ?_⟩
    · intro j hj64 hst hw
      simp only [Index.val, Nat.reduceMul, Nat.reduceAdd] at hst hw
      simp only [raw.set_breakpoint, Index.val, Nat.reduceMul, Nat.reduceAdd]
      rw [raw_dr7_tb_third]
      rw [if_neg (by omega), if_neg (by omega), if_neg (by omega),
        decide_eq_true hj64, Bool.and_true]
    · intro i2 hi
      cases i2 <;> first | rfl | exact absurd rfl hi
    · simp only [HwbpContext.set_breakpoint, raw.set_breakpoint, Dr7.set_size,
        Dr7.set_condition, Dr7.set_enabled_local, Index.val, Nat.reduceMul,
        Nat.reduceAdd]
      rw [CONTEXT.mk.injEq]
      refine ⟨rfl, rfl, rfl, rfl, rfl, ?_⟩
      apply Nat.eq_of_testBit_eq
      intro j
      rw [hwbp_dr7_tb_third, raw_dr7_tb_third]
  · refine ⟨?_, rfl, rfl, ?_, ?_⟩
    · intro j hj64 hst hw
      simp only [Index.val, Nat.reduceMul, Nat.reduceAdd] at hst hw
      simp only [raw.set_breakpoint, Index.val, Nat.reduceMul, Nat.reduceAdd]
      rw [raw_dr7_tb_fourth]
      rw [if_neg (by omega), if_neg (by omega), if_neg (by omega),
        decide_eq_true hj64, Bool.and_true]
    · intro i2 hi
      cases i2 <;> first | rfl | exact absurd rfl hi
    · simp only [HwbpContext.set_breakpoint, raw.set_breakpoint, Dr7.set_size,
        Dr7.set_condition, Dr7.set_enabled_local, Index.val, Nat.reduceMul,
        Nat.reduceAdd]
      rw [CONTEXT.mk.injEq]
      refine ⟨rfl, rfl, rfl, rfl, rfl, ?_⟩
      apply Nat.eq_of_testBit_eq
      intro j
      rw [hwbp_dr7_tb_fourth, raw_dr7_tb_fourth]

/-- Witness for C2 at a concrete context and breakpoint (slot 2): Dr7 bit 5
(slot 2's global-enable bit) is preserved, Dr6 and a foreign address register
are untouched, the slot's own address register receives the address, and the
wrapper-level writer agrees with the raw writer. -/
theorem c2_set_breakpoint_frame_witness :
    ((raw.set_breakpoint ⟨11, 22, 33, 44, 55, 123456789⟩
        ⟨true, .Third, 99, .Four, .Write⟩).Dr7.testBit 5 =
      (⟨11, 22, 33, 44, 55, 123456789⟩ : CONTEXT).Dr7.testBit 5) ∧
    ((raw.set_breakpoint ⟨11, 22, 33, 44, 55, 123456789⟩
        ⟨true, .Third, 99, .Four, .Write⟩).Dr6 = 55) ∧
    ((raw.set_breakpoint ⟨11, 22, 33, 44, 55, 123456789⟩
        ⟨true, .Third, 99, .Four, .Write⟩).addressRegister .Third = 99) ∧
    ((raw.set_breakpoint ⟨11, 22, 33, 44, 55, 123456789⟩
        ⟨true, .Third, 99, .Four, .Write⟩).addressRegister .First = 11) ∧
    (HwbpContext.set_breakpoint ⟨11, 22, 33, 44, 55, 123456789⟩
        ⟨true, .Third, 99, .Four, .Write⟩ =
      raw.set_breakpoint ⟨11, 22, 33, 44, 55, 123456789⟩
        ⟨true, .Third, 99, .Four, .Write⟩) := by
  have h := c2_set_breakpoint_frame ⟨11, 22, 33, 44, 55, 123456789⟩
    ⟨true, .Third, 99, .Four, .Write⟩
  exact ⟨h.1 5 (by decide) (by decide) (by decide), h.2.1, h.2.2.1,
    h.2.2.2.1 .First (by decide), h.2.2.2.2⟩

/-! ## C9: decode totality -/

/-- Any value masked with `0b11` is decodable as a `Size`. -/
theorem size_from_bits_and3 (y : Nat) : ∃ s, Size.from_bits (y &&& 3) = some s := by
  have h : y &&& 3 < 4 := Nat.lt_succ_of_le Nat.and_le_right
  obtain ⟨m, hm⟩ : ∃ m, y &&& 3 = m := ⟨_, rfl⟩
  rw [hm] at h ⊢
  interval_cases m <;> exact ⟨_, rfl⟩

/-- Any value masked with `0b11` is decodable as a `Condition`. -/
theorem cond_from_bits_and3 (y : Nat) : ∃ c, Condition.from_bits (y &&& 3) = some c := by
  have h : y &&& 3 < 4 := Nat.lt_succ_of_le Nat.and_le_right
  obtain ⟨m, hm⟩ : ∃ m, y &&& 3 = m := ⟨_, rfl⟩
  rw [hm] at h ⊢
  interval_cases m <;> exact ⟨_, rfl⟩

/-- `raw::get_breakpoint` never reaches its panic (`.expect`) branch. -/
theorem get_breakpoint_isSome (ctx : CONTEXT) (i : Index) :
    (raw.get_breakpoint ctx i).isSome := by
  obtain ⟨s, hs⟩ := size_from_bits_and3 (ctx.Dr7 >>> (4 * i.val + 18))
  obtain ⟨c, hc⟩ := cond_from_bits_and3 (ctx.Dr7 >>> (4 * i.val + 16))
  simp only [raw.get_breakpoint, hs, hc, Option.isSome_some]

/-- C9.  Decode totality: for every Dr7 value and slot, decoding the slot's
condition and size always succeeds, and `raw::get_breakpoint` always returns
a breakpoint — the `.expect` failure branches are unreachable. -/
theorem c9_decode_total (v : Nat) (i : Index) (ctx : CONTEXT) :
    (Dr7.condition v i).isSome ∧ (Dr7.size v i).isSome ∧
    (raw.get_breakpoint ctx i).isSome := by
  refine ⟨?_, ?_, get_breakpoint_isSome ctx i⟩
  · obtain ⟨c, hc⟩ := cond_from_bits_and3 (v >>> (16 + 4 * i.val))
    simp only [Dr7.condition, hc, Option.isSome_some]
  · obtain ⟨s, hs⟩ := size_from_bits_and3 (v >>> (18 + 4 * i.val))
    simp only [Dr7.size, hs, Option.isSome_some]

/-! ## C4: size encoding table -/

/-- C4.  `Size::as_bits` maps the 1/2/4/8-byte variants to `0b00`, `0b01`,
`0b11`, `0b10` (not the ordinal index), `from_bits` inverts `as_bits`, and
on every two-bit pattern `as_bits` inverts `from_bits`. -/
theorem c4_size_encoding :
    (Size.One.as_bits = 0b00 ∧ Size.Two.as_bits = 0b01 ∧
      Size.Four.as_bits = 0b11 ∧ Size.Eight.as_bits = 0b10) ∧
    (∀ s : Size, Size.from_bits s.as_bits = some s) ∧
    (∀ b : Fin 4, (Size.from_bits b.val).map Size.as_bits = some b.val) := by
  refine ⟨by decide, fun s => by cases s <;> rfl, fun b => ?_⟩
  fin_cases b <;> rfl

/-! ## C5: status reset semantics -/

/-- C5.  `Dr6::reset` returns the prior value and leaves the register holding
exactly `1 <<< 16`; a second reset at steady state returns
`(1 <<< 16, 1 <<< 16)`; `reset_dr6` does the same on a context. -/
theorem c5_reset_semantics (v : Nat) (ctx : CONTEXT) :
    Dr6.reset v = (v, 1 <<< 16) ∧
    Dr6.reset (Dr6.reset v).2 = (1 <<< 16, 1 <<< 16) ∧
    reset_dr6 ctx = (ctx.Dr6, { ctx with Dr6 := 1 <<< 16 }) :=
  ⟨rfl, rfl, rfl⟩

/-! ## C8: status decode -/

/-- The four Dr6 hit flags are exactly bits 0–3. -/
theorem dr6_breakpoints_testBit (v : Nat) :
    Dr6.breakpoints v = [v.testBit 0, v.testBit 1, v.testBit 2, v.testBit 3] := by
  have h0 : ((v &&& 1) != 0) = v.testBit 0 := and_shift_one_bne v 0
  have h1 : ((v &&& 2) != 0) = v.testBit 1 := and_shift_one_bne v 1
  have h2 : ((v &&& 4) != 0) = v.testBit 2 := and_shift_one_bne v 2
  have h3 : ((v &&& 8) != 0) = v.testBit 3 := and_shift_one_bne v 3
  simp only [Dr6.breakpoints, h0, h1, h2, h3]

/-- C8.  Status decode: slot `k` is asserted exactly by bit `k` (0–3),
`debug_register_access` is bit 13, `single_step` is bit 14, `task_switch`
is bit 15; the spec's three concrete decodes hold. -/
theorem c8_status_decode (v : Nat) :
    Dr6.breakpoints v = [v.testBit 0, v.testBit 1, v.testBit 2, v.testBit 3] ∧
    Dr6.debug_register_access v = v.testBit 13 ∧
    Dr6.single_step v = v.testBit 14 ∧
    Dr6.task_switch v = v.testBit 15 ∧
    (Dr6.breakpoints 0b0001 = [true, false, false, false] ∧
      Dr6.debug_register_access 0b0001 = false ∧
      Dr6.single_step 0b0001 = false ∧ Dr6.task_switch 0b0001 = false) ∧
    (Dr6.breakpoints (1 <<< 13) = [false, false, false, false] ∧
      Dr6.debug_register_access (1 <<< 13) = true) ∧
    Dr6.breakpoints 0b1010 = [false, true, false, true] := by
  refine ⟨dr6_breakpoints_testBit v, and_shift_one_bne v 13, and_shift_one_bne v 14,
    and_shift_one_bne v 15, by decide, by decide, by decide⟩

/-! ## C10: EFlags setters only OR bits in -/

/-- C10.  `EFlags::set_trap`/`set_resume` only OR bits into the word:
passing `false` leaves the word unchanged, passing `true` sets exactly
bit 8 (resp. 16) and leaves every other bit as it was; consequently the
corresponding query reads back `true`. -/
theorem c10_eflags_set_or_only (v : Nat) (j : Nat) :
    EFlags.set_trap v false = v ∧
    EFlags.set_resume v false = v ∧
    (EFlags.set_trap v true).testBit j = (v.testBit j || decide (j = 8)) ∧
    (EFlags.set_resume v true).testBit j = (v.testBit j || decide (j = 16)) ∧
    EFlags.trap (EFlags.set_trap v true) = true ∧
    EFlags.resume (EFlags.set_resume v true) = true := by
  refine ⟨?_, ?_, ?_, ?_, ?_, ?_⟩
  · simp [EFlags.set_trap]
  · simp [EFlags.set_resume]
  · simp only [EFlags.set_trap, Bool.toNat_true, Nat.testBit_or,
      Nat.testBit_shiftLeft, tb1, ge_iff_le]
    have h : (decide (8 ≤ j) && decide (0 = j - 8)) = decide (j = 8) := by
      by_cases h8 : j = 8
      · subst h8; simp
      · rcases Nat.lt_or_ge j 8 with h2 | h2
        · simp [Nat.not_le.mpr h2, h8]
        · have h3 : ¬(0 = j - 8) := by omega
          simp [h2, h3, h8]
    rw [h]
  · simp only [EFlags.set_resume, Bool.toNat_true, Nat.testBit_or,
      Nat.testBit_shiftLeft, tb1, ge_iff_le]
    have h : (decide (16 ≤ j) && decide (0 = j - 16)) = decide (j = 16) := by
      by_cases h8 : j = 16
      · subst h8; simp
      · rcases Nat.lt_or_ge j 16 with h2 | h2
        · simp [Nat.not_le.mpr h2, h8]
        · have h3 : ¬(0 = j - 16) := by omega
          simp [h2, h3, h8]
    rw [h]
  · rw [EFlags.trap, and_shift_one_bne]
    simp only [EFlags.set_trap, Bool.toNat_true, Nat.testBit_or,
      Nat.testBit_shiftLeft, tb1, ge_iff_le, Nat.reduceLeDiff, Nat.reduceSub,
      Nat.reduceEqDiff, decide_True, Bool.true_and, Bool.or_true]
  · rw [EFlags.resume, and_shift_one_bne]
    simp only [EFlags.set_resume, Bool.toNat_true, Nat.testBit_or,
      Nat.testBit_shiftLeft, tb1, ge_iff_le, Nat.reduceLeDiff, Nat.reduceSub,
      Nat.reduceEqDiff, decide_True, Bool.true_and, Bool.or_true]

/-! ## C3: ambiguous-status policy -/

/-- C3.  For every Dr6 value: `Index::by_dr6` returns `some i` exactly when
slot `i`'s hit bit is the single set bit among bits 0–3 (zero or several set
bits give `none`); `breakpoint_by_dr6` is the image of that lookup; and
`breakpoints_by_dr6_value` yields the descriptor of every slot whose hit bit
is set, in ascending slot order. -/
theorem c3_dr6_lookup_policy (ctx : CONTEXT) (dr6 : Nat) :
    (Index.by_dr6 dr6 =
      match Index.indices.filter (fun i => dr6.testBit i.val) with
      | [i] => some i
      | _ => none) ∧
    HwbpContext.breakpoint_by_dr6 ctx dr6 =
      (Index.by_dr6 dr6).map (HwbpContext.breakpoint ctx) ∧
    HwbpContext.breakpoints_by_dr6_value ctx dr6 =
      (Index.indices.filter (fun i => dr6.testBit i.val)).map
        (HwbpContext.breakpoint ctx) := by
  refine ⟨?_, rfl, ?_⟩
  · obtain ⟨m, hm⟩ : ∃ m, dr6 &&& 15 = m := ⟨_, rfl⟩
    have hlt : m < 16 := hm ▸ Nat.lt_succ_of_le Nat.and_le_right
    have hb : ∀ k, k < 4 → dr6.testBit k = m.testBit k := by
      intro k hk
      rw [← hm, Nat.testBit_and, tb15, decide_eq_true hk, Bool.and_true]
    simp only [Index.by_dr6, hm, Index.indices, List.filter_cons, List.filter_nil,
      Index.val, hb 0 (by norm_num), hb 1 (by norm_num), hb 2 (by norm_num),
      hb 3 (by norm_num)]
    interval_cases m <;> rfl
  · have h0 : ((dr6 &&& 1) != 0) = dr6.testBit 0 := and_shift_one_bne dr6 0
    have h1 : ((dr6 &&& 2) != 0) = dr6.testBit 1 := and_shift_one_bne dr6 1
    have h2 : ((dr6 &&& 4) != 0) = dr6.testBit 2 := and_shift_one_bne dr6 2
    have h3 : ((dr6 &&& 8) != 0) = dr6.testBit 3 := and_shift_one_bne dr6 3
    cases hb0 : dr6.testBit 0 <;> cases hb1 : dr6.testBit 1 <;>
      cases hb2 : dr6.testBit 2 <;> cases hb3 : dr6.testBit 3 <;>
        simp only [HwbpContext.breakpoints_by_dr6_value, dr6_breakpoints_testBit,
          h0, h1, h2, h3, hb0, hb1, hb2, hb3, List.enum, List.enumFrom, List.filterMap_cons,
          List.filterMap_nil, List.filter_cons, List.filter_nil, List.map_cons,
          List.map_nil, Index.indices, Index.try_from, Index.val,
          HwbpContext.breakpoint, Option.getD_some, Nat.reduceAdd,
          Nat.reduceEqDiff, reduceIte, decide_True, decide_False] <;> simp [HwbpContext.breakpoint]

/-! ## C6: clear postcondition -/

/-- `Nat.testBit` of the constant `255`. -/
theorem tb255 (j : Nat) : Nat.testBit 255 j = decide (j < 8) := by
  rw [show (255 : Nat) = 2 ^ 8 - 1 from rfl, Nat.testBit_two_pow_sub_one]

/-- `Nat.testBit` of the constant `65280` (`0xFF00`, the Dr7 reserved mask). -/
theorem tb65280 (j : Nat) : Nat.testBit 65280 j = (decide (j ≥ 8) && decide (j - 8 < 8)) := by
  rw [show (65280 : Nat) = 255 <<< 8 from rfl, Nat.testBit_shiftLeft, tb255]

/-- After `raw::clear_breakpoints` every slot decodes to the disabled
slot-0-style descriptor `⟨false, i, 0, One, Execution⟩`. -/
theorem get_breakpoint_cleared (ctx : CONTEXT) (i : Index) :
    raw.get_breakpoint (raw.clear_breakpoints ctx) i =
      some ⟨false, i, 0, .One, .Execution⟩ := by
  cases i <;>
    simp only [raw.get_breakpoint, raw.clear_breakpoints, Index.val,
      Condition.from_bits, Size.from_bits, extract2, and_shift_one_bne,
      Nat.testBit_and, tb65280, ge_iff_le, Nat.reduceMul, Nat.reduceAdd,
      Nat.reduceSub, Nat.reduceLeDiff, Nat.reduceLT, decide_True, decide_False,
      Bool.and_false, Bool.and_true, Bool.false_and, Bool.true_and,
      Bool.toNat_false, Bool.toNat_true, Nat.reduceMul, Nat.reduceAdd]

/-- C6.  After `clear_breakpoints`: Dr0–Dr3 are zero, every slot's local and
global enable bits are clear and its condition/size decode to
Execution/One (all-zero bits), Dr7 bits 8–15 keep their prior values,
`get_breakpoints` yields four disabled zero-address descriptors,
`unused_breakpoint` returns slot 0, and the wrapper-level clear
(via `Dr7::clear_breakpoints`) produces the same context. -/
theorem c6_clear_postcondition (ctx : CONTEXT) :
    (raw.clear_breakpoints ctx).Dr0 = 0 ∧ (raw.clear_breakpoints ctx).Dr1 = 0 ∧
    (raw.clear_breakpoints ctx).Dr2 = 0 ∧ (raw.clear_breakpoints ctx).Dr3 = 0 ∧
    (∀ i : Index,
      Dr7.enabled_local (raw.clear_breakpoints ctx).Dr7 i = false ∧
      Dr7.enabled_global (raw.clear_breakpoints ctx).Dr7 i = false ∧
      Dr7.condition (raw.clear_breakpoints ctx).Dr7 i = some Condition.Execution ∧
      Dr7.size (raw.clear_breakpoints ctx).Dr7 i = some Size.One) ∧
    ((raw.clear_breakpoints ctx).Dr7 >>> 8 &&& 255 = ctx.Dr7 >>> 8 &&& 255) ∧
    raw.get_breakpoints (raw.clear_breakpoints ctx) =
      [⟨false, .First, 0, .One, .Execution⟩, ⟨false, .Second, 0, .One, .Execution⟩,
       ⟨false, .Third, 0, .One, .Execution⟩, ⟨false, .Fourth, 0, .One, .Execution⟩] ∧
    raw.unused_breakpoint (raw.clear_breakpoints ctx) =
      some ⟨false, .First, 0, .One, .Execution⟩ ∧
    HwbpContext.clear_breakpoints ctx = raw.clear_breakpoints ctx := by
  have hgb : raw.get_breakpoints (raw.clear_breakpoints ctx) =
      [⟨false, .First, 0, .One, .Execution⟩, ⟨false, .Second, 0, .One, .Execution⟩,
       ⟨false, .Third, 0, .One, .Execution⟩, ⟨false, .Fourth, 0, .One, .Execution⟩] := by
    simp only [raw.get_breakpoints, Index.indices, List.map_cons, List.map_nil,
      raw.get_breakpointD, get_breakpoint_cleared, Option.getD_some]
  refine ⟨rfl, rfl, rfl, rfl, ?_, ?_, hgb, ?_, rfl⟩
  · intro i
    cases i <;>
      refine ⟨?_, ?_, ?_, ?_⟩ <;>
        simp only [Dr7.enabled_local, Dr7.enabled_global, Dr7.condition, Dr7.size,
          raw.clear_breakpoints, Index.val, Condition.from_bits, Size.from_bits,
          extract2, and_shift_one_bne, Nat.testBit_and, tb65280, ge_iff_le,
          Nat.reduceMul, Nat.reduceAdd, Nat.reduceSub, Nat.reduceLeDiff,
          Nat.reduceLT, decide_True, decide_False, Bool.and_false, Bool.and_true,
          Bool.false_and, Bool.true_and, Bool.toNat_false, Bool.toNat_true]
  · apply Nat.eq_of_testBit_eq
    intro j
    simp only [raw.clear_breakpoints, Nat.testBit_and, Nat.testBit_shiftRight,
      tb255, tb65280, ge_iff_le]
    have h8 : decide (8 ≤ 8 + j) = true := decide_eq_true (Nat.le_add_right 8 j)
    have hsub : 8 + j - 8 = j := by omega
    rw [h8, hsub, Bool.true_and, Bool.and_assoc, Bool.and_self]
  · simp only [raw.unused_breakpoint, hgb]
    rfl

/-- Reading a slot other than the one just written is unaffected by
`raw::set_breakpoint` (read-side frame lemma). -/
theorem get_set_breakpoint_other (ctx : CONTEXT) (bp : HardwareBreakpoint)
    (i : Index) (h : i ≠ bp.index) :
    raw.get_breakpoint (raw.set_breakpoint ctx bp) i = raw.get_breakpoint ctx i := by
  obtain ⟨e, k, a, s, c⟩ := bp
  cases k <;> cases i <;> first
    | exact absurd rfl h
    | (simp only [raw.get_breakpoint, raw.set_breakpoint, Index.val,
        Nat.reduceMul, Nat.reduceAdd, extract2, and_shift_one_bne,
        raw_dr7_tb_first, raw_dr7_tb_second, raw_dr7_tb_third, raw_dr7_tb_fourth]
       simp)

/-! ## C7: overlap query -/

/-- C7.  `get_breakpoints_by_address` returns exactly the slots (enabled or
not) whose half-open span `[address, address + size.in_bytes)` contains the
query point; in the spec's concrete scenario — slot 0 at `A` with size 4
(enabled), slot 1 at `A + 4` with size 1 (disabled) — querying `A + 2`
returns only slot 0, querying `A + 4` returns only slot 1, and querying
`A + 10` returns nothing. -/
theorem c7_overlap_query (ctx : CONTEXT) (p : Nat) (bp : HardwareBreakpoint) (A : Nat) :
    (bp ∈ raw.get_breakpoints_by_address ctx p ↔
      bp ∈ raw.get_breakpoints ctx ∧ bp.address ≤ p ∧ p < bp.address + bp.size.in_bytes) ∧
    (raw.get_breakpoints_by_address
        (raw.set_breakpoint (raw.set_breakpoint ⟨0, 0, 0, 0, 0, 0⟩
          ⟨true, .First, A, .Four, .Write⟩) ⟨false, .Second, A + 4, .One, .Write⟩)
        (A + 2)).map HardwareBreakpoint.index = [.First] ∧
    (raw.get_breakpoints_by_address
        (raw.set_breakpoint (raw.set_breakpoint ⟨0, 0, 0, 0, 0, 0⟩
          ⟨true, .First, A, .Four, .Write⟩) ⟨false, .Second, A + 4, .One, .Write⟩)
        (A + 4)).map HardwareBreakpoint.index = [.Second] ∧
    raw.get_breakpoints_by_address
        (raw.set_breakpoint (raw.set_breakpoint ⟨0, 0, 0, 0, 0, 0⟩
          ⟨true, .First, A, .Four, .Write⟩) ⟨false, .Second, A + 4, .One, .Write⟩)
        (A + 10) = [] := by
  have hempty : ∀ i : Index, raw.get_breakpoint (⟨0, 0, 0, 0, 0, 0⟩ : CONTEXT) i =
      some ⟨false, i, 0, .One, .Execution⟩ := by
    intro i
    rw [show (⟨0, 0, 0, 0, 0, 0⟩ : CONTEXT) = raw.clear_breakpoints ⟨0, 0, 0, 0, 0, 0⟩
      from by decide]
    exact get_breakpoint_cleared _ i
  have h1 : raw.get_breakpoint (raw.set_breakpoint (raw.set_breakpoint ⟨0, 0, 0, 0, 0, 0⟩
      ⟨true, .First, A, .Four, .Write⟩) ⟨false, .Second, A + 4, .One, .Write⟩) .First =
      some ⟨true, .First, A, .Four, .Write⟩ := by
    rw [get_set_breakpoint_other _ _ _ (fun hh => Index.noConfusion hh)]
    exact set_get_breakpoint_roundtrip _ ⟨true, .First, A, .Four, .Write⟩
  have h2 : raw.get_breakpoint (raw.set_breakpoint (raw.set_breakpoint ⟨0, 0, 0, 0, 0, 0⟩
      ⟨true, .First, A, .Four, .Write⟩) ⟨false, .Second, A + 4, .One, .Write⟩) .Second =
      some ⟨false, .Second, A + 4, .One, .Write⟩ :=
    set_get_breakpoint_roundtrip _ ⟨false, .Second, A + 4, .One, .Write⟩
  have h3 : raw.get_breakpoint (raw.set_breakpoint (raw.set_breakpoint ⟨0, 0, 0, 0, 0, 0⟩
      ⟨true, .First, A, .Four, .Write⟩) ⟨false, .Second, A + 4, .One, .Write⟩) .Third =
      some ⟨false, .Third, 0, .One, .Execution⟩ := by
    rw [get_set_breakpoint_other _ _ _ (fun hh => Index.noConfusion hh),
      get_set_breakpoint_other _ _ _ (fun hh => Index.noConfusion hh)]
    exact hempty .Third
  have h4 : raw.get_breakpoint (raw.set_breakpoint (raw.set_breakpoint ⟨0, 0, 0, 0, 0, 0⟩
      ⟨true, .First, A, .Four, .Write⟩) ⟨false, .Second, A + 4, .One, .Write⟩) .Fourth =
      some ⟨false, .Fourth, 0, .One, .Execution⟩ := by
    rw [get_set_breakpoint_other _ _ _ (fun hh => Index.noConfusion hh),
      get_set_breakpoint_other _ _ _ (fun hh => Index.noConfusion hh)]
    exact hempty .Fourth
  have hbps : raw.get_breakpoints
      (raw.set_breakpoint (raw.set_breakpoint ⟨0, 0, 0, 0, 0, 0⟩
        ⟨true, .First, A, .Four, .Write⟩) ⟨false, .Second, A + 4, .One, .Write⟩) =
      [⟨true, .First, A, .Four, .Write⟩, ⟨false, .Second, A + 4, .One, .Write⟩,
       ⟨false, .Third, 0, .One, .Execution⟩, ⟨false, .Fourth, 0, .One, .Execution⟩] := by
    simp only [raw.get_breakpoints, Index.indices, List.map_cons, List.map_nil,
      raw.get_breakpointD, h1, h2, h3, h4, Option.getD_some]
  refine ⟨?_, ?_, ?_, ?_⟩
  · simp only [raw.get_breakpoints_by_address, List.mem_filter, decide_eq_true_eq]
  · simp only [raw.get_breakpoints_by_address, hbps, List.filter_cons,
      List.filter_nil, Size.in_bytes,
      decide_eq_true (show A ≤ A + 2 ∧ A + 2 < A + 4 by omega),
      decide_eq_false (show ¬(A + 4 ≤ A + 2 ∧ A + 2 < A + 4 + 1) by omega),
      decide_eq_false (show ¬(0 ≤ A + 2 ∧ A + 2 < 0 + 1) by omega)] <;> simp
  · simp only [raw.get_breakpoints_by_address, hbps, List.filter_cons,
      List.filter_nil, Size.in_bytes,
      decide_eq_false (show ¬(A ≤ A + 4 ∧ A + 4 < A + 4) by omega),
      decide_eq_true (show A + 4 ≤ A + 4 ∧ A + 4 < A + 4 + 1 by omega),
      decide_eq_false (show ¬(0 ≤ A + 4 ∧ A + 4 < 0 + 1) by omega)] <;> simp
  · simp only [raw.get_breakpoints_by_address, hbps, List.filter_cons,
      List.filter_nil, Size.in_bytes,
      decide_eq_false (show ¬(A ≤ A + 10 ∧ A + 10 < A + 4) by omega),
      decide_eq_false (show ¬(A + 4 ≤ A + 10 ∧ A + 10 < A + 4 + 1) by omega),
      decide_eq_false (show ¬(0 ≤ A + 10 ∧ A + 10 < 0 + 1) by omega)] <;> simp
